import Mathlib

/-!
Shallow embedding of the arga-transformer triple-store resolver
(src/resolver.rs, src/rdf.rs, src/dataset.rs, src/readers.rs).

IRIs are modelled as plain strings (IRI parsing/validity is out of scope;
every IRI appearing in the claims is syntactically valid, so the
`iref` conversions that can only fail on malformed IRIs are modelled as
total).  The sophia in-memory quad store is modelled as a list of quads;
`quads_matching` becomes a filter over that list, so iteration order is
the insertion order (one admissible order for the unordered store).
Rust `HashMap`s keyed by IRIs or literals are modelled as association
lists in insertion order.

Failures are kept apart by kind: `Failure.err` models a returned
`Result::Err` value, `Failure.panicked` models a Rust abort
(`unimplemented!`, `todo!`, `unwrap` on `Err`/`None`), and
`Failure.fuel` marks that the modelled recursion exceeded the fuel we
give it (the Rust source recurses without any bound).
-/

deriving instance DecidableEq for Except

namespace Arga

/-- IRIs are absolute IRI strings; equality is byte-exact (iref::IriBuf). -/
abbrev Iri := String

/-- rdf.rs `Literal`: tagged union of `String(text)` and `UInt64(n)`. -/
inductive Literal where
  | str (s : String)
  | uint64 (n : Nat)
deriving DecidableEq

/-- sophia `SimpleTerm`, restricted to the variants the transformer uses:
IRIs, blank nodes, datatyped literals and embedded (RDF-star) triples. -/
inductive Term where
  | iri (i : Iri)
  | blank (b : String)
  | lit (value : String) (dtype : Iri)
  | triple (s p o : Term)
deriving DecidableEq

/-- A quad of the in-memory dataset: graph `none` is the default graph. -/
structure Quad where
  subject : Term
  predicate : Term
  object : Term
  graph : Option Iri
deriving DecidableEq

/-- The in-memory quad store (sophia FastDataset), as the list of its
quads in insertion order. -/
abbrev Store := List Quad

/-- rdf.rs `Condition` (the object of a `mapping:when` embedded triple). -/
inductive Condition where
  | is (literal : Literal)
deriving DecidableEq

/-- rdf.rs `Condition::check`: exact literal equality. -/
def Condition.check (c : Condition) (value : Literal) : Bool :=
  match c with
  | .is literal => decide (value = literal)

/-- rdf.rs `Map`: a decoded mapping operator.  The Rust `From` variant is
named `fromGraph` here because `from` is a reserved word in Lean. -/
inductive Map where
  | same (iri : Iri)
  | combines (iris : List Iri)
  | hash (iri : Iri)
  | hashFirst (iris : List Iri)
  | when (iri : Iri) (cond : Condition)
  | fromGraph (graph : Iri) (via : Iri)
deriving DecidableEq

/-- errors.rs `ResolveError`. -/
inductive ResolveError where
  | iriNotFound (iri : String)
  | unsupportedMapping (m : Map)
  | ambiguousMapping (iri : Iri) (values : List Literal)
deriving DecidableEq

/-- errors.rs `TransformError` (the variants reachable in the modelled
code paths). -/
inductive TransformError where
  | missingEntityId
  | invalidMappingIri (s : String)
  | insert (s : String)
  | resolve (e : ResolveError)
deriving DecidableEq

/-- How a modelled computation ends abnormally: a returned error value, a
Rust abort (panic), or exhaustion of the fuel bounding an unbounded
recursion of the source. -/
inductive Failure where
  | err (e : TransformError)
  | panicked
  | fuel
deriving DecidableEq

/-- Result type of modelled fallible computations. -/
abbrev Res (α : Type) := Except Failure α

/-- resolver.rs `ValueMap`: canonical field IRI to observed values. -/
abbrev ValueMap := List (Iri × List Literal)

/-- resolver.rs `RecordMap`: record id (row-subject literal) to values. -/
abbrev RecordMap := List (Literal × ValueMap)

/-- resolver.rs `FieldMap`: canonical field IRI to its decoded maps. -/
abbrev FieldMap := List (Iri × List Map)

/-- Association-list lookup (models `HashMap::get`). -/
def alookup {α β : Type} [DecidableEq α] : List (α × β) → α → Option β
  | [], _ => none
  | (k, v) :: rest, a => if a = k then some v else alookup rest a

/-- Association-list update with a default (models
`HashMap::entry(k).or_default()` followed by a mutation `f`). -/
def updateAssoc {α β : Type} [DecidableEq α] (m : List (α × β)) (k : α) (dflt : β) (f : β → β) :
    List (α × β) :=
  match m with
  | [] => [(k, f dflt)]
  | (k', v) :: rest => if k = k' then (k', f v) :: rest else (k', v) :: updateAssoc rest k dflt f

/-! ## IRI constants of the mapping DSL (rdf.rs) -/

def mappingNs : Iri := "http://arga.org.au/schemas/mapping/"
def rdfNs : Iri := "http://www.w3.org/1999/02/22-rdf-syntax-ns"
def xsdNs : Iri := "http://www.w3.org/2001/XMLSchema#"

def sameIri : Iri := mappingNs ++ "same"
def combinesIri : Iri := mappingNs ++ "combines"
def hashIri : Iri := mappingNs ++ "hash"
def hashFirstIri : Iri := mappingNs ++ "hash_first"
def whenIri : Iri := mappingNs ++ "when"
def fromIri : Iri := mappingNs ++ "from"
def isIri : Iri := mappingNs ++ "is"
def viaIri : Iri := mappingNs ++ "via"
def transformsIntoIri : Iri := mappingNs ++ "transforms_into"

def rdfFirst : Iri := rdfNs ++ "#first"
def rdfRest : Iri := rdfNs ++ "#rest"
def rdfNil : Iri := rdfNs ++ "#nil"

def xsdString : Iri := xsdNs ++ "string"
def xsdBoolean : Iri := xsdNs ++ "boolean"
def xsdDecimal : Iri := xsdNs ++ "decimal"
def xsdInteger : Iri := xsdNs ++ "integer"

/-- rdf.rs `Mapping`: the IRI-tagged operator enum. -/
inductive MappingOp where
  | same
  | combines
  | hash
  | hashFirst
  | whenOp
  | fromOp
deriving DecidableEq

/-- rdf.rs `Mapping::try_from` via `try_from_term`/`try_from_iri`: an IRI
predicate is decoded to an operator, anything else is
`InvalidMappingIri`. -/
def parseMapping (t : Term) : Res MappingOp :=
  match t with
  | .iri i =>
      if i = sameIri then .ok .same
      else if i = combinesIri then .ok .combines
      else if i = hashIri then .ok .hash
      else if i = hashFirstIri then .ok .hashFirst
      else if i = whenIri then .ok .whenOp
      else if i = fromIri then .ok .fromOp
      else .error (.err (.invalidMappingIri i))
  | _ => .error (.err (.invalidMappingIri "non-iri mapping predicate"))

/-- rdf.rs `Rdfs`: the RDF list vocabulary. -/
inductive RdfsPred where
  | first
  | rest
  | nil
deriving DecidableEq

/-- rdf.rs `Rdfs` decoding of an IRI. -/
def parseRdfsIri (i : Iri) : Option RdfsPred :=
  if i = rdfFirst then some .first
  else if i = rdfRest then some .rest
  else if i = rdfNil then some .nil
  else none

/-- rdf.rs `Literal::try_from(&SimpleTerm)`: a datatyped literal is decoded
by its XSD datatype (`string` supported; `boolean`/`decimal`/`integer` hit
`todo!()`, i.e. panic; unknown datatypes are `InvalidMappingIri`); any
non-literal term returns `MissingEntityId`. -/
def literalFromTerm (t : Term) : Res Literal :=
  match t with
  | .lit v dt =>
      if dt = xsdString then .ok (.str v)
      else if dt = xsdBoolean then .error .panicked
      else if dt = xsdDecimal then .error .panicked
      else if dt = xsdInteger then .error .panicked
      else .error (.err (.invalidMappingIri dt))
  | _ => .error (.err .missingEntityId)

/-! ## Graph-name matchers (resolver.rs `GraphIri`, `GraphIriName`, and
the `Some(iri)`-slice matcher used by `field_map`) -/

/-- resolver.rs `GraphIri` matcher (also the behaviour of the
`Vec<Option<SimpleTerm>>` scope terms in `field_map`): a quad matches when
its graph name is a named graph in the scope set; the default graph never
matches. -/
def graphInScope (scope : List Iri) : Option Iri → Bool
  | some i => scope.contains i
  | none => false

/-- resolver.rs `GraphIriName` matcher: exactly one named graph; the
default graph never matches. -/
def graphIsExactly (graph : Iri) : Option Iri → Bool
  | some i => decide (i = graph)
  | none => false

/-! ## collect_iris (resolver.rs lines 411-448)

The Rust `collect_iris` recurses on the `rest` blank node of an RDF list
with no depth bound and no visited set; the `fuel` parameter makes the
recursion well-founded in the model, with `Failure.fuel` marking the
executions on which the source would recurse forever. -/

/-- Quads whose subject is the given blank node inside the given named
graph (the `quads_matching([node], Any, Any, GraphIriName(graph))` scan). -/
def nodeQuads (store : Store) (graph : Iri) (node : String) : List Quad :=
  store.filter fun q => decide (q.subject = Term.blank node) && graphIsExactly graph q.graph

/-- The loop body of resolver.rs `collect_iris` over the quad list of the
current blank node, parameterised by the recursive descent (`recur`) into
a nested blank node.  `first` with an IRI object appends the IRI (any
other object is skipped by the `_ => continue` arm); `rest` with a
blank-node object recurses into that node and then continues with the
remaining quads; `rest` pointing at `rdf:nil` returns early with the IRIs
collected so far; other cases are aborts or `InvalidMappingIri`, exactly
as in the source. -/
def collectLoop (recur : String → List Iri → Res (List Iri)) :
    List Quad → List Iri → Res (List Iri)
  | [], acc => .ok acc
  | q :: rest, acc =>
    match q.predicate with
    | .iri p =>
      match parseRdfsIri p with
      | none => .error (.err (.invalidMappingIri p))
      | some .first =>
        match q.object with
        | .iri i => collectLoop recur rest (acc ++ [i])
        | _ => collectLoop recur rest acc
      | some .rest =>
        match q.object with
        | .blank b =>
          match recur b acc with
          | .error e => .error e
          | .ok acc' => collectLoop recur rest acc'
        | .iri i =>
          match parseRdfsIri i with
          | some .nil => .ok acc
          | some _ => .error .panicked
          | none => .error (.err (.invalidMappingIri i))
        | _ => .error .panicked
      | some .nil => .ok acc
    | _ => .error (.err (.invalidMappingIri "non-iri list predicate"))

/-- resolver.rs `collect_iris`: one invocation scans the quads of the
given blank node; each descent into a nested blank node is a fresh
invocation.  The source performs this recursion with no depth bound and
no visited set, so each invocation costs one unit of fuel here. -/
def collectIris (store : Store) (graph : Iri) : Nat → String → List Iri → Res (List Iri)
  | 0, _, _ => .error .fuel
  | fuel + 1, node, acc =>
    collectLoop (collectIris store graph fuel) (nodeQuads store graph node) acc

/-- Entry point of a list walk: collect into an empty vector. -/
def collectIrisTop (store : Store) (graph : Iri) (fuel : Nat) (node : String) :
    Res (List Iri) :=
  collectIris store graph fuel node []

/-! ## field_map (resolver.rs lines 296-409) -/

/-- Does the quad subject match one of the requested field IRIs
(the subject terms slice of the `field_map` scan)? -/
def subjectInFields (fields : List Iri) (q : Quad) : Bool :=
  match q.subject with
  | .iri s => fields.contains s
  | _ => false

/-- Decode the object of one mapping quad according to its operator
(the `match predicate` of resolver.rs `field_map`): non-IRI objects of
`same`/`hash`, non-blank objects of `combines`/`hash_first`, non-triple
objects of `when`/`from` and non-IRI pieces of the embedded triples hit
`unimplemented!()` arms, i.e. panic. -/
def buildMap (store : Store) (fuel : Nat) (graph : Iri) (op : MappingOp) (obj : Term) :
    Res Map :=
  match op with
  | .same =>
    match obj with
    | .iri i => .ok (Map.same i)
    | _ => .error .panicked
  | .hash =>
    match obj with
    | .iri i => .ok (Map.hash i)
    | _ => .error .panicked
  | .hashFirst =>
    match obj with
    | .blank b =>
      match collectIrisTop store graph fuel b with
      | .ok iris => .ok (Map.hashFirst iris)
      | .error e => .error e
    | _ => .error .panicked
  | .combines =>
    match obj with
    | .blank b =>
      match collectIrisTop store graph fuel b with
      | .ok iris => .ok (Map.combines iris)
      | .error e => .error e
    | _ => .error .panicked
  | .whenOp =>
    match obj with
    | .triple cs cp co =>
      match cs with
      | .iri subj =>
        match cp with
        | .iri p =>
          if p = isIri then
            match literalFromTerm co with
            | .ok l => .ok (Map.when subj (Condition.is l))
            | .error e => .error e
          else .error (.err (.invalidMappingIri p))
        | _ => .error (.err (.invalidMappingIri "non-iri condition predicate"))
      | _ => .error .panicked
    | _ => .error .panicked
  | .fromOp =>
    match obj with
    | .triple cs cp co =>
      match cs with
      | .iri g =>
        match cp with
        | .iri p =>
          if p = viaIri then
            match co with
            | .iri v => .ok (Map.fromGraph g v)
            | _ => .error .panicked
          else .error (.err (.invalidMappingIri p))
        | _ => .error (.err (.invalidMappingIri "non-iri from predicate"))
      | _ => .error .panicked
    | _ => .error .panicked

/-- Decode one matched mapping quad and append the resulting `Map` to the
entry of its subject field (resolver.rs `field_map` loop body).  The
graph of a matched quad is always a named graph (the scope matcher admits
nothing else); a non-IRI subject hits an `unimplemented!()` arm. -/
def fieldMapQuad (store : Store) (fuel : Nat) (acc : FieldMap) (q : Quad) : Res FieldMap :=
  match q.graph with
  | none => .error .panicked
  | some graph =>
    match parseMapping q.predicate with
    | .error e => .error e
    | .ok op =>
      match buildMap store fuel graph op q.object with
      | .error e => .error e
      | .ok map =>
        match q.subject with
        | .iri s => .ok (updateAssoc acc s [] (fun l => l ++ [map]))
        | _ => .error .panicked

/-- resolver.rs `field_map`: decode every quad whose subject is a
requested field and whose graph is a named graph of the scope. -/
def fieldMap (store : Store) (fuel : Nat) (fields : List Iri) (scope : List Iri) :
    Res FieldMap :=
  (store.filter fun q => subjectInFields fields q && graphInScope scope q.graph).foldlM
    (fieldMapQuad store fuel) []

/-! ## reverse map, conditions and linked joins (resolver.rs lines 150-181) -/

/-- The bookkeeping `records` derives from the field map: the reverse map
from source IRIs to canonical IRIs, the `when` conditions, the `from`
linked-join entries `(key, graph, via)` and the list of `via` fields. -/
structure MapInfo where
  reverse : List (Iri × List Iri)
  conds : List (Iri × Condition)
  linked : List (Iri × Iri × Iri)
  linkedFields : List Iri
deriving DecidableEq

/-- Source IRIs a map refers to (the `iris` match in `records`). -/
def mapSourceIris : Map → List Iri
  | .same iri => [iri]
  | .combines iris => iris
  | .hash iri => [iri]
  | .hashFirst iris => iris
  | .when _ _ => []
  | .fromGraph _ _ => []

/-- Fold one `(key, map)` pair into the bookkeeping (resolver.rs
lines 157-180). -/
def mapInfoStep (key : Iri) (info : MapInfo) (m : Map) : MapInfo :=
  let info :=
    { info with
      reverse := (mapSourceIris m).foldl
        (fun r mappedFrom => updateAssoc r mappedFrom [] (fun l => l ++ [key])) info.reverse }
  let info :=
    match m with
    | .when iri cond => { info with conds := info.conds ++ [(iri, cond)] }
    | _ => info
  match m with
  | .fromGraph g v =>
      { info with linked := info.linked ++ [(key, g, v)], linkedFields := info.linkedFields ++ [v] }
  | _ => info

/-- Build the bookkeeping from the whole field map. -/
def buildMapInfo (map : FieldMap) : MapInfo :=
  map.foldl (fun info kv => kv.2.foldl (mapInfoStep kv.1) info) ⟨[], [], [], []⟩

/-! ## resolve_field_terms (resolver.rs lines 452-524) -/

/-- HashSet-style insertion into the predicate term set (the set is only
consumed through membership, so a duplicate-free list is faithful). -/
def insertTerm (terms : List Iri) (t : Iri) : List Iri :=
  if terms.contains t then terms else terms ++ [t]

/-- Terms contributed by the operand list of a `Combines`/`HashFirst`
map: every operand must itself be mapped, and only `Same` operand maps
are supported. -/
def operandTerms (map : FieldMap) (iris : List Iri) (terms : List Iri) : Res (List Iri) :=
  iris.foldlM
    (fun terms iri =>
      match alookup map iri with
      | none => .error (.err (.resolve (.iriNotFound iri)))
      | some mapping =>
        mapping.foldlM
          (fun terms fm =>
            match fm with
            | .same m => .ok (insertTerm terms m)
            | unsupported => .error (.err (.resolve (.unsupportedMapping unsupported))))
          terms)
    terms

/-- resolver.rs `resolve_field_terms`: the set of source predicate IRIs
the data scan matches on. -/
def resolveFieldTerms (fields : List Iri) (map : FieldMap) : Res (List Iri) :=
  fields.foldlM
    (fun terms f =>
      match alookup map f with
      | none => .ok terms
      | some mapping =>
        mapping.foldlM
          (fun terms fm =>
            match fm with
            | .same m => .ok (insertTerm terms m)
            | .hash m => .ok (insertTerm terms m)
            | .hashFirst iris => operandTerms map iris terms
            | .combines iris => operandTerms map iris terms
            | .when iri _ => .ok (insertTerm terms iri)
            | .fromGraph _ v => .ok (insertTerm terms v))
          terms)
    []

/-! ## data scan (resolver.rs lines 192-247) -/

/-- The `record_links` lookup: via-field IRI to (link value to record
rows holding that value). -/
abbrev RecordLinks := List (Iri × List (Literal × List Literal))

/-- Accumulator of the data scan. -/
structure ScanAcc where
  records : RecordMap
  links : RecordLinks
deriving DecidableEq

/-- Does a quad match the predicate term set? -/
def predMatches (terms : List Iri) (q : Quad) : Bool :=
  match q.predicate with
  | .iri i => terms.contains i
  | _ => false

/-- Process one matched data quad (resolver.rs lines 203-247).  The
subject and object must be datatyped literals and the predicate an IRI;
the other arms are `unimplemented!()`, i.e. panics.  The raw lexical
value is taken as a string, the datatype is ignored.  A predicate missing
from the reverse map is `IriNotFound`. -/
def scanQuad (reverse : List (Iri × List Iri)) (linkedFields : List Iri) (acc : ScanAcc)
    (q : Quad) : Res ScanAcc := do
  let subject ← match q.subject with
    | .lit v _ => Except.ok (Literal.str v)
    | _ => Except.error Failure.panicked
  let mappedTo ← match q.predicate with
    | .iri i =>
      match alookup reverse i with
      | some iris => Except.ok iris
      | none => Except.error (Failure.err (.resolve (.iriNotFound i)))
    | _ => Except.error Failure.panicked
  let value ← match q.object with
    | .lit v _ => Except.ok (Literal.str v)
    | _ => Except.error Failure.panicked
  let acc := { acc with records := updateAssoc acc.records subject [] id }
  let acc := mappedTo.foldl
    (fun acc iri =>
      let acc :=
        if linkedFields.contains iri then
          { acc with
            links := updateAssoc acc.links iri []
              (fun m => updateAssoc m value [] (fun l => l ++ [subject])) }
        else acc
      { acc with
        records := updateAssoc acc.records subject []
          (fun record => updateAssoc record iri [] (fun l => l ++ [value])) })
    acc
  return acc

/-- Scan every quad matching `(Any, predicate ∈ terms, Any, GraphIri(scope))`. -/
def scanStore (reverse : List (Iri × List Iri)) (linkedFields : List Iri) (terms : List Iri)
    (scope : List Iri) (store : Store) : Res ScanAcc :=
  (store.filter fun q => predMatches terms q && graphInScope scope q.graph).foldlM
    (scanQuad reverse linkedFields) ⟨[], []⟩

/-! ## linked joins (resolver.rs lines 250-272, dataset.rs lines 157-177) -/

/-- dataset.rs `get_source_from_model`: subjects of
`(Any, mapping:transforms_into, model, Any)` quads — note the graph
position matches ANY graph, the default graph included. -/
def getSourceFromModel (store : Store) (model : Iri) : List Iri :=
  (store.filter fun q =>
      decide (q.predicate = Term.iri transformsIntoIri) && decide (q.object = Term.iri model)).filterMap
    fun q =>
      match q.subject with
      | .iri i => some i
      | _ => none

/-- `records[idx].extend(values)`: `HashMap::extend` replaces the value
list of a key already present (it does not append to it). -/
def extendValueMap (vm : ValueMap) (values : ValueMap) : ValueMap :=
  values.foldl (fun acc kv => updateAssoc acc kv.1 [] (fun _ => kv.2)) vm

/-- Merge one linked dataset into the outer records (resolver.rs
lines 258-271).  `keys.first().unwrap()` panics when the via entry holds
an empty list. -/
def mergeLinkedData (via : Iri) (links : RecordLinks) (recs : RecordMap)
    (linkedData : RecordMap) : Res RecordMap :=
  linkedData.foldlM
    (fun recs kv =>
      match alookup kv.2 via with
      | none => .ok recs
      | some keys =>
        match keys.head? with
        | none => .error .panicked
        | some viaKey =>
          match (alookup links via).bind (fun m => alookup m viaKey) with
          | none => .ok recs
          | some rows =>
            .ok (rows.foldl
              (fun rs idx => updateAssoc rs idx [] (fun vm => extendValueMap vm kv.2)) recs))
    recs

/-! ## when-filter (resolver.rs lines 275-290) -/

/-- Does a record pass every `when` condition?  A record fails as soon as
some condition's IRI has an entry containing a value the condition
rejects; a record with no entry under the IRI passes. -/
def passesConditions (conds : List (Iri × Condition)) (record : ValueMap) : Bool :=
  conds.all fun c =>
    match alookup record c.1 with
    | some values => values.all fun v => c.2.check v
    | none => true

/-- Filter the record map by the `when` conditions. -/
def filterRecords (conds : List (Iri × Condition)) (records : RecordMap) : RecordMap :=
  records.filter fun r => passesConditions conds r.2

/-! ## records (resolver.rs lines 145-293)

The Rust `records` recurses into itself for every `from` linked join
with no depth bound; `fuel` bounds that recursion in the model. -/

/-- The linked-join loop of `records` (resolver.rs lines 250-272),
parameterised by the recursive resolve (`recur`) of the linked dataset:
for each `(key, graph, via)`, resolve `[key, via]` over
`get_source_from_model(graph) ++ [graph]` and merge the result into the
outer records. -/
def linkedLoop (store : Store) (recur : List Iri → List Iri → Res RecordMap) :
    List (Iri × Iri × Iri) → RecordLinks → RecordMap → Res RecordMap
  | [], _, recs => .ok recs
  | (key, graph, via) :: rest, links, recs =>
    let models := getSourceFromModel store graph ++ [graph]
    match recur [key, via] models with
    | .error e => .error e
    | .ok linkedData =>
      match mergeLinkedData via links recs linkedData with
      | .error e => .error e
      | .ok recs' => linkedLoop store recur rest links recs'

/-- resolver.rs `Resolver::records`: build the field map, the predicate
terms and the bookkeeping, scan the data quads in scope, resolve and
merge the linked datasets, and filter by the `when` conditions.  The
source recurses into itself for every `from` linked join with no depth
bound; each invocation costs one unit of fuel here. -/
def recordsGo (store : Store) : Nat → List Iri → List Iri → Res RecordMap
  | 0, _, _ => .error .fuel
  | fuel + 1, fields, scope =>
    match fieldMap store (fuel + 1) fields scope with
    | .error e => .error e
    | .ok map =>
      let info := buildMapInfo map
      match resolveFieldTerms fields map with
      | .error e => .error e
      | .ok terms =>
        match scanStore info.reverse info.linkedFields terms scope store with
        | .error e => .error e
        | .ok acc =>
          match linkedLoop store (recordsGo store fuel) info.linked acc.links acc.records with
          | .error e => .error e
          | .ok recs => .ok (filterRecords info.conds recs)

/-! ## operator application (resolver.rs lines 39-143) -/

/-- The values of a `Combines` operand that carry actual data: non-empty
strings, and every `UInt64` rendered in decimal (resolver.rs
lines 96-106). -/
def presentStrings (values : List Literal) : List String :=
  values.filterMap fun v =>
    match v with
    | .str val => if val.isEmpty then none else some val
    | .uint64 val => some (toString val)

/-- The `Combines` loop over the operand list (resolver.rs lines 86-119):
an operand with more than one present value is `AmbiguousMapping`
(carrying all its observed values); otherwise its first present value, if
any, is appended to the strings to combine. -/
def combinesLoop (fields : ValueMap) : List Iri → List String → Res (List String)
  | [], acc => .ok acc
  | iri :: rest, acc =>
    match alookup fields iri with
    | none => combinesLoop fields rest acc
    | some values =>
      let present := presentStrings values
      if present.length > 1 then
        .error (.err (.resolve (.ambiguousMapping iri values)))
      else
        match present.head? with
        | some val => combinesLoop fields rest (acc ++ [val])
        | none => combinesLoop fields rest acc

/-- The first operand IRI (in list order) that has an entry in the record
yields its full value list (resolver.rs lines 74-83). -/
def firstValue : List Iri → ValueMap → Option (List Literal)
  | [], _ => none
  | iri :: rest, fields =>
    match alookup fields iri with
    | some val => some val
    | none => firstValue rest fields

/-- Evaluate one map for one record (the `match field_map` of
resolver.rs lines 71-125): `Same` and `Hash` both return the raw entry of
the canonical field (no hashing happens anywhere), `HashFirst` returns
the full entry of the first operand present, `Combines` returns the
single space-joined string, `When` and `From` produce no value. -/
def applyMap (fieldIri : Iri) (fields : ValueMap) : Map → Res (Option (List Literal))
  | .same _ => .ok (alookup fields fieldIri)
  | .hash _ => .ok (alookup fields fieldIri)
  | .hashFirst iris => .ok (firstValue iris fields)
  | .combines iris =>
    match combinesLoop fields iris [] with
    | .error e => .error e
    | .ok toCombine => .ok (some [Literal.str (String.intercalate " " toCombine)])
  | .when _ _ => .ok none
  | .fromGraph _ _ => .ok none

/-- Evaluate all maps of a field for one record, concatenating the
produced values in map order (the inner `for field_map in mapping` loop
of `resolve`). -/
def applyMaps (fieldIri : Iri) (fields : ValueMap) : List Map → Res (List Literal)
  | [] => .ok []
  | m :: rest =>
    match applyMap fieldIri fields m with
    | .error e => .error e
    | .ok r =>
      match applyMaps fieldIri fields rest with
      | .error e => .error e
      | .ok vs => .ok (r.getD [] ++ vs)

/-- Resolved output: record id to the produced (field IRI, value) pairs,
modelling the `HashMap<Literal, Vec<R>>` of `resolve` with
`R = (field, literal)`. -/
abbrev OutMap := List (Literal × List (Iri × Literal))

/-- Push produced values of one field under a record
(`data.entry(entity_id).or_default().push(field)` per value). -/
def pushValues (data : OutMap) (rid : Literal) (f : Iri) (vals : List Literal) : OutMap :=
  vals.foldl (fun d v => updateAssoc d rid [] (fun l => l ++ [(f, v)])) data

/-- The output loop of `resolve` (resolver.rs lines 62-140): for each
requested field with a mapping, for each record, evaluate every map and
push the produced values. -/
def resolveApply (map : FieldMap) (records : RecordMap) (fields : List Iri) : Res OutMap :=
  fields.foldlM
    (fun data f =>
      match alookup map f with
      | none => .ok data
      | some maps =>
        records.foldlM
          (fun d rec =>
            match applyMaps f rec.2 maps with
            | .error e => .error e
            | .ok vals => .ok (pushValues d rec.1 f vals))
          data)
    []

/-- resolver.rs `Resolver::resolve`: field map, records, then operator
application. -/
def resolveFn (store : Store) (fuel : Nat) (fields : List Iri) (scope : List Iri) :
    Res OutMap :=
  match fieldMap store fuel fields scope with
  | .error e => .error e
  | .ok map =>
    match recordsGo store fuel fields scope with
    | .error e => .error e
    | .ok records => resolveApply map records fields

/-! ## the CSV reader (readers.rs)

The underlying csv crate is external; it is modelled at its interface, a
list of already-tokenised rows (each either a row of cell strings or a
tokenizer error).  The header row has already been consumed by
`CsvReader::new`. -/

/-- The triple a reader yields: row index, header, value. -/
abbrev CsvTriple := Nat × String × Literal

/-- readers.rs `CsvReader`: the captured headers, the remaining records
of the underlying csv iterator, the current record, and the indices
tracked for the next record and column. -/
structure CsvState where
  headers : List String
  records : List (Except String (List String))
  currentRecord : Option (List String)
  nextRow : Nat
  nextColumn : Nat
deriving DecidableEq

/-- readers.rs `CsvReader::new`: headers captured from the first row;
`next_row` and `next_column` both start at 1; no current record. -/
def csvReaderNew (headers : List String) (records : List (Except String (List String))) :
    CsvState :=
  { headers := headers, records := records, currentRecord := none, nextRow := 1, nextColumn := 1 }

/-- readers.rs `CsvReader::next_triple`: emit the current column of the
current record and advance the column, or reset the column state at the
end of the line.  (The source indexes `self.headers[current_column]`,
which would abort on a row wider than the header; no modelled input
exercises that, so the lookup takes a default here.) -/
def nextTriple (s : CsvState) : Option CsvTriple × CsvState :=
  match s.currentRecord with
  | none => (none, s)
  | some record =>
    let currentRow := s.nextRow - 1
    let currentColumn := s.nextColumn - 1
    match record.get? currentColumn with
    | some value =>
      (some (currentRow, s.headers.getD currentColumn "", Literal.str value),
        { s with nextColumn := s.nextColumn + 1 })
    | none =>
      (none, { s with nextColumn := 1, currentRecord := none })

/-- readers.rs `CsvReader::next` (the Iterator impl): yield the next
triple of the current record if any; otherwise fetch the next record
(incrementing `next_row`), yielding tokenizer errors as `Err` items and
ending at the end of the document. -/
def csvNext (s : CsvState) : Option (Except String CsvTriple) × CsvState :=
  match nextTriple s with
  | (some t, s') => (some (.ok t), s')
  | (none, s') =>
    match s'.records with
    | [] => (none, { s' with records := [] })
    | result :: rest =>
      match result with
      | .error err => (some (.error err), { s' with records := rest })
      | .ok record =>
        let s'' := { s' with
          records := rest
          nextRow := s'.nextRow + 1
          currentRecord := some record }
        match nextTriple s'' with
        | (none, s3) => (none, s3)
        | (some t, s3) => (some (.ok t), s3)

/-- Drive the iterator to the end, collecting every yielded item.  The
iterator yields at most one item per cell plus one per tokenizer error,
so any fuel past that bound is enough. -/
def csvRun (fuel : Nat) (s : CsvState) : List (Except String CsvTriple) :=
  match fuel with
  | 0 => []
  | fuel' + 1 =>
    match csvNext s with
    | (none, _) => []
    | (some item, s') => item :: csvRun fuel' s'

/-! ## the loader (dataset.rs `Dataset::load`) -/

def sourceGraphBase : Iri := "http://arga.org.au/source/"

/-- FastDataset insertion is idempotent: a duplicate quad leaves the
store unchanged. -/
def insertQuad (store : Store) (q : Quad) : Store :=
  if store.contains q then store else store ++ [q]

/-- How sophia turns the inserted object into a term: `&str` becomes an
`xsd:string` literal, `usize` an `xsd:integer` literal. -/
def literalObjectTerm : Literal → Term
  | .str val => .lit val xsdString
  | .uint64 val => .lit (toString val) xsdInteger

/-- The quad `Dataset::load` inserts for one `(row_index, header, value)`
triple: subject the row index (a `usize`, hence an integer literal),
predicate the schema namespace joined with the header, object the value
literal, graph the synthesised source graph IRI. -/
def rowQuad (schema : Iri) (sourceIri : Iri) (t : CsvTriple) : Quad :=
  { subject := .lit (toString t.1) xsdInteger
    predicate := .iri (schema ++ t.2.1)
    object := literalObjectTerm t.2.2
    graph := some sourceIri }

/-- Outcome of `Dataset::load`: the updated store and the count of
insert operations, or an abort. -/
inductive LoadResult where
  | ok (store : Store) (total : Nat)
  | panicked
deriving DecidableEq

/-- The loading loop of `Dataset::load` (dataset.rs lines 118-129):
`triple.unwrap()` aborts on the first `Err` item of the reader; every
`Ok` triple is inserted (empty values included) and counted. -/
def loadGo (schema : Iri) (sourceIri : Iri) :
    List (Except String CsvTriple) → Store → Nat → LoadResult
  | [], store, total => .ok store total
  | .error _ :: _, _, _ => .panicked
  | .ok t :: rest, store, total =>
    loadGo schema sourceIri rest (insertQuad store (rowQuad schema sourceIri t)) (total + 1)

/-- dataset.rs `Dataset::load`: synthesise the source graph IRI
`http://arga.org.au/source/{source}` and load every triple under it. -/
def load (store : Store) (schema : Iri) (triples : List (Except String CsvTriple))
    (source : String) : LoadResult :=
  loadGo schema (sourceGraphBase ++ source) triples store 0

/-! ## Characterisations used to state the claims -/

/-- The values a record holds for a field (empty when absent). -/
def valuesFor (vm : ValueMap) (iri : Iri) : List Literal :=
  (alookup vm iri).getD []

/-- The value a `Combines` operand chooses, per the spec: its first
non-empty value, none when the operand is absent or all its values are
empty. -/
def chosenValue (vm : ValueMap) (iri : Iri) : Option String :=
  (presentStrings (valuesFor vm iri)).head?

/-- How many output values one map produces for one record (the
per-record, per-map output length of `resolve`). -/
def contributionSpec (f : Iri) (vm : ValueMap) : Map → Nat
  | .same _ => (valuesFor vm f).length
  | .hash _ => (valuesFor vm f).length
  | .hashFirst iris => ((firstValue iris vm).getD []).length
  | .combines _ => 1
  | .when _ _ => 0
  | .fromGraph _ _ => 0

/-- The total number of observed values a record holds, across all its
fields. -/
def totalValues (vm : ValueMap) : Nat :=
  (vm.map fun kv => kv.2.length).sum

/-- The `from` linked-join entries a field-map result yields (empty on a
failed field map). -/
def linkedOfResult : Res FieldMap → List (Iri × Iri × Iri)
  | .ok map => (buildMapInfo map).linked
  | .error _ => []

/-! ## Concrete stores used by the counterexamples and witnesses -/

/-- A store whose operand list is a blank node whose `rest` points back
to itself: `_:b0 rdf:rest _:b0` inside graph `g`. -/
def cyclicListStore : Store :=
  [⟨Term.blank "b0", Term.iri rdfRest, Term.blank "b0", some "g"⟩]

/-- A store with a `from` linked join: graph `m` maps `f:sci` from graph
`g` via `f:tid` and maps `f:tid` to `src:tid`; graph `g` maps `f:tid` to
`src:tid2`; source graph `s` holds the outer row `0` with
`src:tid = "T1"`; source graph `t` holds the linked row `5` with
`src:tid2 = "T1"` and `src:tid2 = "EXTRA"`. -/
def linkedJoinStore : Store :=
  [⟨Term.iri "f:sci", Term.iri fromIri,
      Term.triple (Term.iri "g") (Term.iri viaIri) (Term.iri "f:tid"), some "m"⟩,
   ⟨Term.iri "f:tid", Term.iri sameIri, Term.iri "src:tid", some "m"⟩,
   ⟨Term.iri "f:tid", Term.iri sameIri, Term.iri "src:tid2", some "g"⟩,
   ⟨Term.lit "0" xsdInteger, Term.iri "src:tid", Term.lit "T1" xsdString, some "s"⟩,
   ⟨Term.lit "5" xsdInteger, Term.iri "src:tid2", Term.lit "T1" xsdString, some "t"⟩,
   ⟨Term.lit "5" xsdInteger, Term.iri "src:tid2", Term.lit "EXTRA" xsdString, some "t"⟩]

/-- A `transforms_into` declaration placed in the default graph:
`t mapping:transforms_into g`. -/
def defaultGraphTransformsQuad : Quad :=
  ⟨Term.iri "t", Term.iri transformsIntoIri, Term.iri "g", none⟩

/-- A store with a `same` mapping in graph `m` and one data quad in
graph `s` whose subject is an IRI rather than a literal. -/
def iriSubjectStore : Store :=
  [⟨Term.iri "f:x", Term.iri sameIri, Term.iri "src:x", some "m"⟩,
   ⟨Term.iri "bad", Term.iri "src:x", Term.lit "v" xsdString, some "s"⟩]

/-- A plain `same` store used by witnesses: graph `m` maps `f:tid` to
`src:tid` and source graph `s` holds row `0` with `src:tid = "T1"`. -/
def plainSameStore : Store :=
  [⟨Term.iri "f:tid", Term.iri sameIri, Term.iri "src:tid", some "m"⟩,
   ⟨Term.lit "0" xsdInteger, Term.iri "src:tid", Term.lit "T1" xsdString, some "s"⟩]

/-! ## Theorems -/

set_option maxRecDepth 100000

/-- C2.  The claim says a `hash`-mapped field outputs the xxh3 content
hash of the observed value.  The code (resolver.rs line 73) evaluates
`Map::Hash` exactly like `Map::Same`: it returns the raw entry of the
record, and no hashing function exists anywhere in the crate — although
the doc comment on `Mapping::Hash` (rdf.rs lines 66-69) promises an xxh3
content hash.  For every field, record and operand, the `hash` output is
the raw value list; concretely, an observed `"XYZ"` is emitted as
`"XYZ"`, not as its hash. -/
theorem hash_map_outputs_raw_value :
    (∀ (f iri : Iri) (vm : ValueMap), applyMap f vm (Map.hash iri) = .ok (alookup vm f)) ∧
    applyMap "f:acc" [("f:acc", [Literal.str "XYZ"])] (Map.hash "src:acc") =
      .ok (some [Literal.str "XYZ"]) :=
  ⟨fun _ _ _ => rfl, by decide⟩

/-- C3.  The claim says `hash_first` outputs exactly one value, the hash
of the first value of the first operand with non-empty values.  The code
(resolver.rs lines 74-83) returns the raw, unhashed, full value list of
the first operand that has an entry at all: the scenario of spec S5
yields the raw string `"XYZ"` (not `xxh3("XYZ")`), and an operand with
two values yields both of them. -/
theorem hash_first_outputs_raw_values :
    (∀ (f : Iri) (vm : ValueMap) (iris : List Iri),
      applyMap f vm (Map.hashFirst iris) = .ok (firstValue iris vm)) ∧
    applyMap "f:acc" [("f:alt", [Literal.str "XYZ"])] (Map.hashFirst ["f:first", "f:alt"]) =
      .ok (some [Literal.str "XYZ"]) ∧
    applyMaps "f:acc" [("f:first", [Literal.str "X", Literal.str "Y"])]
        [Map.hashFirst ["f:first"]] =
      .ok [Literal.str "X", Literal.str "Y"] :=
  ⟨fun _ _ _ => rfl, by decide, by decide⟩

/-- C8.  The claim says the first data row has row index 0.  The reader
initialises `next_row` to 1 and increments it before emitting the first
triple of a fetched record (readers.rs lines 36, 103), so the first data
row is emitted with index 1 — although the comment above the fields says
the scheme is there to "maintain zero-indexing".  On header `a,b` and the
single row `1,2` the iterator yields exactly the two triples with row
index 1 and terminates. -/
theorem csv_reader_first_row_index_one :
    csvRun 10 (csvReaderNew ["a", "b"] [Except.ok ["1", "2"]]) =
      [Except.ok (1, "a", Literal.str "1"), Except.ok (1, "b", Literal.str "2")] ∧
    csvRun 10 (csvReaderNew ["a", "b"] [Except.ok ["1", "2"]]) ≠
      [Except.ok (0, "a", Literal.str "1"), Except.ok (0, "b", Literal.str "2")] := by
  exact ⟨by decide, by decide⟩

/-- C9 counterexample.  The claim says no quad is inserted for an empty
value.  `Dataset::load` (dataset.rs lines 118-129) has no emptiness
check: loading the single triple `(0, "h", "")` inserts one quad whose
object is the empty string literal and returns count 1, where the claim
requires no quad and count 0. -/
theorem load_empty_value_inserts_quad :
    load [] "p/" [Except.ok (0, "h", Literal.str "")] "s" =
      LoadResult.ok
        [⟨Term.lit "0" xsdInteger, Term.iri "p/h", Term.lit "" xsdString,
          some "http://arga.org.au/source/s"⟩] 1 ∧
    LoadResult.ok
        [⟨Term.lit "0" xsdInteger, Term.iri "p/h", Term.lit "" xsdString,
          some "http://arga.org.au/source/s"⟩] 1 ≠ LoadResult.ok [] 0 := by
  exact ⟨by decide, by decide⟩

/-- C9 amended.  Loading row data for source `s` inserts exactly one
quad per (header, value) pair — empty values included — with subject the
row index as an integer literal, predicate the schema namespace joined
with the header, object the value literal, and graph
`http://arga.org.au/source/{source}`; duplicate quads leave the store
unchanged but are still counted, and `load` returns the count of insert
operations, i.e. the number of triples. -/
theorem load_inserts_row_quads (store : Store) (schema : Iri) (triples : List CsvTriple)
    (source : String) :
    load store schema (triples.map Except.ok) source =
      LoadResult.ok
        (triples.foldl
          (fun st t => insertQuad st (rowQuad schema (sourceGraphBase ++ source) t)) store)
        triples.length := by
  have go : ∀ (ts : List CsvTriple) (st : Store) (total : Nat),
      loadGo schema (sourceGraphBase ++ source) (ts.map Except.ok) st total =
        LoadResult.ok
          (ts.foldl (fun st t => insertQuad st (rowQuad schema (sourceGraphBase ++ source) t)) st)
          (total + ts.length) := by
    intro ts
    induction ts with
    | nil => intro st total; simp [loadGo]
    | cons t rest ih =>
      intro st total
      simp only [List.map_cons, loadGo, List.foldl_cons, List.length_cons, ih]
      congr 1
      omega
  have h := go triples store 0
  simpa [load] using h

/-- C10.  The claim says failures surface as returned errors, never by
aborting.  `Dataset::load` calls `triple.unwrap()` (dataset.rs
line 120), so an `Err` item from the reader aborts the process instead
of being returned; and the data scan of `Resolver::records` hits
`unimplemented!()` on a subject that is not a literal (resolver.rs
line 212), aborting instead of returning `MissingEntityId`. -/
theorem load_err_item_and_nonliteral_subject_panic :
    load [] "p/" [Except.error "tokenizer failure"] "s" = LoadResult.panicked ∧
    recordsGo iriSubjectStore 2 ["f:x"] ["m", "s"] = .error .panicked ∧
    (Except.error Failure.panicked : Res RecordMap) ≠
      .error (.err .missingEntityId) := by
  exact ⟨by decide, by decide, by decide⟩

/-- C5 counterexample.  The claim says any quad whose graph is outside
the scope — the default graph included — contributes nothing to a
resolve over that scope.  But `get_source_from_model` (dataset.rs
lines 157-177), which a `from` linked join uses to assemble the linked
scope, matches `transforms_into` quads in ANY graph, and the linked
resolve then scans graphs outside the outer scope.  Adding the
default-graph quad `t transforms_into g` to `linkedJoinStore` changes
the result of resolving `[f:sci, f:tid]` over scope `{m, s}`: the linked
row of graph `t` gets merged in and its second `src:tid2` value replaces
the record's `f:tid` entry. -/
theorem scope_exclusion_counterexample :
    graphInScope ["m", "s"] defaultGraphTransformsQuad.graph = false ∧
    resolveFn (linkedJoinStore ++ [defaultGraphTransformsQuad]) 3 ["f:sci", "f:tid"]
        ["m", "s"] =
      .ok [(Literal.str "0", [("f:tid", Literal.str "T1"), ("f:tid", Literal.str "EXTRA")])] ∧
    resolveFn linkedJoinStore 3 ["f:sci", "f:tid"] ["m", "s"] =
      .ok [(Literal.str "0", [("f:tid", Literal.str "T1")])] ∧
    resolveFn (linkedJoinStore ++ [defaultGraphTransformsQuad]) 3 ["f:sci", "f:tid"]
        ["m", "s"] ≠
      resolveFn linkedJoinStore 3 ["f:sci", "f:tid"] ["m", "s"] := by
  exact ⟨by decide, by decide, by decide, by decide⟩

/-- C6.  The claim says the operand-list walk detects cycles by bounded
depth and fails with `InvalidMappingIri`.  `collect_iris` (resolver.rs
lines 411-448) has no depth bound and no visited set: on the cyclic
chain `_:b0 rdf:rest _:b0` it calls itself with the same blank node
again, so the Rust recursion never returns (it aborts by stack
overflow).  In the model: however much fuel the walk is given, it runs
out of it — for no fuel does it return a value or a returned error. -/
theorem collect_iris_cycle_never_returns :
    ∀ (fuel : Nat) (acc : List Iri),
      collectIris cyclicListStore "g" fuel "b0" acc = .error .fuel := by
  intro fuel
  induction fuel with
  | zero => intro acc; rfl
  | succ n ih =>
    intro acc
    have step : collectIris cyclicListStore "g" (n + 1) "b0" acc =
        (match collectIris cyclicListStore "g" n "b0" acc with
         | .error e => .error e
         | .ok acc' => .ok acc') := rfl
    rw [step, ih acc]

/-- C7 counterexample.  The claim says a field mapped with `HashFirst`
outputs exactly one literal per matching map per record.  The code
returns the full value list of the first operand that has an entry
(resolver.rs lines 74-83): a record holding two values under the first
operand yields two output literals for the single map. -/
theorem hash_first_output_length_counterexample :
    applyMaps "f" [("a", [Literal.str "X", Literal.str "Y"])] [Map.hashFirst ["a"]] =
      .ok [Literal.str "X", Literal.str "Y"] ∧
    ([Literal.str "X", Literal.str "Y"].length = 2 ∧ 2 ≠ 1) := by
  exact ⟨by decide, by decide, by decide⟩

/-- When every operand has at most one present value, the `Combines`
loop succeeds and appends, in operand order, the chosen value of each
operand. -/
theorem combinesLoop_ok (vm : ValueMap) :
    ∀ (iris : List Iri) (acc : List String),
      (∀ iri ∈ iris, (presentStrings (valuesFor vm iri)).length ≤ 1) →
      combinesLoop vm iris acc = .ok (acc ++ iris.filterMap (chosenValue vm)) := by
  intro iris
  induction iris with
  | nil => intro acc _; simp [combinesLoop]
  | cons iri rest ih =>
    intro acc h
    have hhead := h iri (List.mem_cons_self iri rest)
    have htail : ∀ i ∈ rest, (presentStrings (valuesFor vm i)).length ≤ 1 :=
      fun i hi => h i (List.mem_cons_of_mem iri hi)
    cases halk : alookup vm iri with
    | none =>
      have hch : chosenValue vm iri = none := by
        simp [chosenValue, valuesFor, halk, presentStrings]
      simp only [combinesLoop, halk]
      simp [List.filterMap_cons, hch, ih acc htail]
    | some values =>
      have hv : valuesFor vm iri = values := by simp [valuesFor, halk]
      rw [hv] at hhead
      simp only [combinesLoop, halk]
      have hng : ¬((presentStrings values).length > 1) := by omega
      rw [if_neg hng]
      cases hh : (presentStrings values).head? with
      | some v =>
        have hch : chosenValue vm iri = some v := by simp [chosenValue, hv, hh]
        refine Eq.trans (ih (acc ++ [v]) htail) ?_
        simp [List.filterMap_cons, hch, List.append_assoc]
      | none =>
        have hch : chosenValue vm iri = none := by simp [chosenValue, hv, hh]
        refine Eq.trans (ih acc htail) ?_
        simp [List.filterMap_cons, hch]

/-- When some operand has more than one present value, the `Combines`
loop fails with `AmbiguousMapping` for such an operand, carrying its
observed values. -/
theorem combinesLoop_err (vm : ValueMap) :
    ∀ (iris : List Iri) (acc : List String),
      (∃ iri ∈ iris, 1 < (presentStrings (valuesFor vm iri)).length) →
      ∃ iri ∈ iris, 1 < (presentStrings (valuesFor vm iri)).length ∧
        combinesLoop vm iris acc =
          .error (.err (.resolve (.ambiguousMapping iri (valuesFor vm iri)))) := by
  intro iris
  induction iris with
  | nil => intro acc h; simp at h
  | cons iri rest ih =>
    intro acc h
    cases halk : alookup vm iri with
    | none =>
      have hz : valuesFor vm iri = [] := by simp [valuesFor, halk]
      obtain ⟨j, hj, hjlen⟩ := h
      have hjr : j ∈ rest := by
        rcases List.mem_cons.1 hj with rfl | hr
        · rw [hz] at hjlen; simp [presentStrings] at hjlen
        · exact hr
      obtain ⟨k, hk, hklen, heq⟩ := ih acc ⟨j, hjr, hjlen⟩
      refine ⟨k, List.mem_cons_of_mem iri hk, hklen, ?_⟩
      simp only [combinesLoop, halk]
      exact heq
    | some values =>
      have hv : valuesFor vm iri = values := by simp [valuesFor, halk]
      by_cases hlen : (presentStrings values).length > 1
      · refine ⟨iri, List.mem_cons_self iri rest, ?_, ?_⟩
        · rw [hv]; exact hlen
        · simp only [combinesLoop, halk]
          rw [if_pos hlen, hv]
      · obtain ⟨j, hj, hjlen⟩ := h
        have hjr : j ∈ rest := by
          rcases List.mem_cons.1 hj with rfl | hr
          · rw [hv] at hjlen; omega
          · exact hr
        cases hh : (presentStrings values).head? with
        | some v =>
          obtain ⟨k, hk, hklen, heq⟩ := ih (acc ++ [v]) ⟨j, hjr, hjlen⟩
          refine ⟨k, List.mem_cons_of_mem iri hk, hklen, ?_⟩
          simp only [combinesLoop, halk]
          rw [if_neg hlen, hh]
          exact heq
        | none =>
          obtain ⟨k, hk, hklen, heq⟩ := ih acc ⟨j, hjr, hjlen⟩
          refine ⟨k, List.mem_cons_of_mem iri hk, hklen, ?_⟩
          simp only [combinesLoop, halk]
          rw [if_neg hlen, hh]
          exact heq

/-- C1.  For a `combines` map over an operand list and a record: if some
operand IRI has more than one non-empty value, evaluation fails with
`AmbiguousMapping` carrying that IRI and its observed values (resolver.rs
lines 84-119); otherwise it outputs the single string literal joining,
in operand-list order, the first non-empty value of each operand (absent
or all-empty operands elided) with single spaces. -/
theorem combines_ambiguity_or_join (f : Iri) (vm : ValueMap) (iris : List Iri) :
    ((∃ iri ∈ iris, 1 < (presentStrings (valuesFor vm iri)).length) →
      ∃ iri ∈ iris, 1 < (presentStrings (valuesFor vm iri)).length ∧
        applyMap f vm (Map.combines iris) =
          .error (.err (.resolve (.ambiguousMapping iri (valuesFor vm iri))))) ∧
    ((∀ iri ∈ iris, (presentStrings (valuesFor vm iri)).length ≤ 1) →
      applyMap f vm (Map.combines iris) =
        .ok (some [Literal.str
          (String.intercalate " " (iris.filterMap (chosenValue vm)))])) := by
  constructor
  · intro h
    obtain ⟨iri, hmem, hlen, heq⟩ := combinesLoop_err vm iris [] h
    refine ⟨iri, hmem, hlen, ?_⟩
    simp only [applyMap]
    rw [heq]
  · intro h
    simp only [applyMap]
    rw [combinesLoop_ok vm iris [] h]
    simp

/-- C1 witness: scenario S2, `genus = "Felis"` and `species = "catus"`
join to `"Felis catus"`, and a duplicated genus value makes the resolve
fail with `AmbiguousMapping` carrying the genus operand and its observed
values. -/
theorem combines_ambiguity_or_join_witness :
    applyMap "f:sci" [("f:gen", [Literal.str "Felis"]), ("f:sp", [Literal.str "catus"])]
        (Map.combines ["f:gen", "f:sp"]) =
      .ok (some [Literal.str "Felis catus"]) ∧
    (∃ iri ∈ ["f:gen", "f:sp"],
      1 < (presentStrings (valuesFor
            [("f:gen", [Literal.str "Felis", Literal.str "Canis"]),
             ("f:sp", [Literal.str "catus"])] iri)).length ∧
      applyMap "f:sci"
          [("f:gen", [Literal.str "Felis", Literal.str "Canis"]),
           ("f:sp", [Literal.str "catus"])]
          (Map.combines ["f:gen", "f:sp"]) =
        .error (.err (.resolve (.ambiguousMapping iri
          (valuesFor
            [("f:gen", [Literal.str "Felis", Literal.str "Canis"]),
             ("f:sp", [Literal.str "catus"])] iri))))) := by
  constructor
  · exact ((combines_ambiguity_or_join "f:sci"
      [("f:gen", [Literal.str "Felis"]), ("f:sp", [Literal.str "catus"])]
      ["f:gen", "f:sp"]).2 (by decide)).trans (by decide)
  · exact (combines_ambiguity_or_join "f:sci"
      [("f:gen", [Literal.str "Felis", Literal.str "Canis"]),
       ("f:sp", [Literal.str "catus"])]
      ["f:gen", "f:sp"]).1 (by decide)

/-- C4.  A record is discarded by the `when` filter (resolver.rs
lines 275-290, rdf.rs `Condition::check`) exactly when, for some
condition `(iri, Is(lit))`, the record has an entry under `iri` holding
a value different from `lit`; a record with no entry under the IRI of
every condition is retained; and a `UInt64` literal never satisfies an
`Is` condition on a `String` literal. -/
theorem when_filter_retains_iff (conds : List (Iri × Condition)) (records : RecordMap)
    (r : Literal × ValueMap) (hr : r ∈ records) :
    (r ∈ filterRecords conds records ↔
      ∀ (iri : Iri) (lit : Literal), (iri, Condition.is lit) ∈ conds →
        ∀ vs, alookup r.2 iri = some vs → ∀ v ∈ vs, v = lit) ∧
    (∀ (n : Nat) (s : String),
      Condition.check (Condition.is (Literal.str s)) (Literal.uint64 n) = false) := by
  constructor
  · rw [filterRecords, List.mem_filter]
    simp only [hr, true_and]
    rw [passesConditions, List.all_eq_true]
    constructor
    · intro hall iri lit hmem vs hvs v hv
      have h := hall (iri, Condition.is lit) hmem
      simp only [hvs, List.all_eq_true] at h
      have hc := h v hv
      simpa [Condition.check] using hc
    · intro himp c hc
      obtain ⟨iri, cond⟩ := c
      cases cond with
      | is lit =>
        show (match alookup r.2 iri with
          | some values => values.all fun v => (Condition.is lit).check v
          | none => true) = true
        cases hvs : alookup r.2 iri with
        | none => rfl
        | some vs =>
          simp only [List.all_eq_true]
          intro v hv
          have := himp iri lit hc vs hvs v hv
          simp [Condition.check, this]
  · intro n s
    simp [Condition.check]

/-- C4 witness: spec S3 — with condition `status Is "Full"`, the row
whose status is `"Draft"` is discarded (the retention condition fails),
and `UInt64` never matches `String`. -/
theorem when_filter_retains_iff_witness :
    (((Literal.str "1", [("p", [Literal.str "Draft"])]) ∈
        filterRecords [("p", Condition.is (Literal.str "Full"))]
          [(Literal.str "0", [("p", [Literal.str "Full"])]),
           (Literal.str "1", [("p", [Literal.str "Draft"])])] ↔
      ∀ (iri : Iri) (lit : Literal),
        (iri, Condition.is lit) ∈ [("p", Condition.is (Literal.str "Full"))] →
          ∀ vs, alookup [("p", [Literal.str "Draft"])] iri = some vs →
            ∀ v ∈ vs, v = lit) ∧
    (∀ (n : Nat) (s : String),
      Condition.check (Condition.is (Literal.str s)) (Literal.uint64 n) = false)) :=
  when_filter_retains_iff [("p", Condition.is (Literal.str "Full"))]
    [(Literal.str "0", [("p", [Literal.str "Full"])]),
     (Literal.str "1", [("p", [Literal.str "Draft"])])]
    (Literal.str "1", [("p", [Literal.str "Draft"])]) (by decide)

/-- The entry of one field is never longer than the record's total
number of observed values. -/
theorem valuesFor_length_le_totalValues (vm : ValueMap) (iri : Iri) :
    (valuesFor vm iri).length ≤ totalValues vm := by
  induction vm with
  | nil => simp [valuesFor, alookup, totalValues]
  | cons kv rest ih =>
    obtain ⟨k, v⟩ := kv
    simp only [valuesFor, alookup, totalValues, List.map_cons, List.sum_cons]
    by_cases h : iri = k
    · rw [if_pos h]
      exact Nat.le_add_right _ _
    · rw [if_neg h]
      exact le_trans ih (Nat.le_add_left _ _)

/-- The entry `HashFirst` picks is never longer than the record's total
number of observed values. -/
theorem firstValue_length_le_totalValues (iris : List Iri) (vm : ValueMap) :
    ((firstValue iris vm).getD []).length ≤ totalValues vm := by
  induction iris with
  | nil => simp [firstValue]
  | cons iri rest ih =>
    simp only [firstValue]
    cases halk : alookup vm iri with
    | none => exact ih
    | some val =>
      have : (valuesFor vm iri).length ≤ totalValues vm := valuesFor_length_le_totalValues vm iri
      rw [valuesFor, halk] at this
      exact this

/-- Each map contributes at most `max 1 (total observed values)` output
values per record. -/
theorem contributionSpec_le_max (f : Iri) (vm : ValueMap) (m : Map) :
    contributionSpec f vm m ≤ max 1 (totalValues vm) := by
  cases m with
  | same iri => exact le_trans (valuesFor_length_le_totalValues vm f) (le_max_right 1 _)
  | hash iri => exact le_trans (valuesFor_length_le_totalValues vm f) (le_max_right 1 _)
  | hashFirst iris => exact le_trans (firstValue_length_le_totalValues iris vm) (le_max_right 1 _)
  | combines iris => exact le_max_left 1 _
  | when iri cond => exact Nat.zero_le _
  | fromGraph g v => exact Nat.zero_le _

/-- A successful map evaluation produces exactly `contributionSpec` many
values. -/
theorem applyMap_ok_length (f : Iri) (vm : ValueMap) (m : Map) (r : Option (List Literal))
    (h : applyMap f vm m = .ok r) :
    (r.getD []).length = contributionSpec f vm m := by
  cases m with
  | same iri =>
    simp only [applyMap, Except.ok.injEq] at h
    subst h; rfl
  | hash iri =>
    simp only [applyMap, Except.ok.injEq] at h
    subst h; rfl
  | hashFirst iris =>
    simp only [applyMap, Except.ok.injEq] at h
    subst h; rfl
  | combines iris =>
    simp only [applyMap] at h
    cases hcl : combinesLoop vm iris [] with
    | error e => rw [hcl] at h; simp at h
    | ok toCombine =>
      rw [hcl] at h
      simp only [Except.ok.injEq] at h
      subst h; rfl
  | when iri cond =>
    simp only [applyMap, Except.ok.injEq] at h
    subst h; rfl
  | fromGraph g v =>
    simp only [applyMap, Except.ok.injEq] at h
    subst h; rfl

/-- A successful evaluation of all maps of a field produces exactly the
sum of the per-map contributions. -/
theorem applyMaps_ok_length (f : Iri) (vm : ValueMap) :
    ∀ (maps : List Map) (vals : List Literal), applyMaps f vm maps = .ok vals →
      vals.length = (maps.map (contributionSpec f vm)).sum := by
  intro maps
  induction maps with
  | nil =>
    intro vals h
    simp only [applyMaps, Except.ok.injEq] at h
    subst h; simp
  | cons m rest ih =>
    intro vals h
    simp only [applyMaps] at h
    cases ha : applyMap f vm m with
    | error e => rw [ha] at h; simp at h
    | ok r =>
      rw [ha] at h
      cases hrest : applyMaps f vm rest with
      | error e => rw [hrest] at h; simp at h
      | ok vs =>
        rw [hrest] at h
        simp only [Except.ok.injEq] at h
        subst h
        simp [List.length_append, applyMap_ok_length f vm m r ha, ih vs hrest]

/-- C7 amended.  For one field and one record, a successful evaluation
of the field's maps yields exactly the sum of per-map contributions:
`Same`/`Hash` contribute the full entry of the field, `HashFirst`
contributes the full entry of the first operand present (which can
exceed one), `Combines` contributes exactly one literal, `When`/`From`
contribute none; hence the output length is at most the number of maps
times `max 1 (total observed values)`. -/
theorem resolve_output_length_bound (f : Iri) (vm : ValueMap) (maps : List Map)
    (vals : List Literal) (h : applyMaps f vm maps = .ok vals) :
    vals.length = (maps.map (contributionSpec f vm)).sum ∧
    (∀ iris, Map.combines iris ∈ maps → contributionSpec f vm (Map.combines iris) = 1) ∧
    vals.length ≤ maps.length * max 1 (totalValues vm) := by
  refine ⟨applyMaps_ok_length f vm maps vals h, fun iris _ => rfl, ?_⟩
  rw [applyMaps_ok_length f vm maps vals h]
  have hb : ∀ x ∈ maps.map (contributionSpec f vm), x ≤ max 1 (totalValues vm) := by
    intro x hx
    obtain ⟨m, _, rfl⟩ := List.mem_map.1 hx
    exact contributionSpec_le_max f vm m
  have := List.sum_le_card_nsmul (maps.map (contributionSpec f vm)) (max 1 (totalValues vm)) hb
  simpa [smul_eq_mul] using this

/-- Two list walks with the same quads agree when their blank-node
descents agree. -/
theorem collectLoop_congr (r1 r2 : String → List Iri → Res (List Iri))
    (h : ∀ b acc, r1 b acc = r2 b acc) :
    ∀ quads acc, collectLoop r1 quads acc = collectLoop r2 quads acc := by
  intro quads
  induction quads with
  | nil => intro acc; rfl
  | cons q rest ih =>
    intro acc
    simp only [collectLoop]
    split
    · split
      · rfl
      · split
        · exact ih _
        · exact ih _
      · split
        · rw [h]
          split
          · rfl
          · exact ih _
        · split
          · rfl
          · rfl
          · rfl
        · rfl
      · rfl
    · rfl

/-- A quad whose graph is out of scope never matches the exact-graph
matcher of an in-scope graph. -/
theorem graphIsExactly_of_out (scope : List Iri) (q : Quad) (g : Iri)
    (hq : graphInScope scope q.graph = false) (hg : scope.contains g = true) :
    graphIsExactly g q.graph = false := by
  cases hqg : q.graph with
  | none => rfl
  | some i =>
    rw [hqg] at hq
    simp only [graphInScope] at hq
    simp only [graphIsExactly, decide_eq_false_iff_not]
    intro rfl_eq
    rw [rfl_eq, hg] at hq
    exact absurd hq (by decide)

/-- Appending an out-of-scope quad leaves the quads of every blank node
of an in-scope graph unchanged. -/
theorem nodeQuads_append (store : Store) (q : Quad) (g : Iri) (b : String)
    (hfalse : graphIsExactly g q.graph = false) :
    nodeQuads (store ++ [q]) g b = nodeQuads store g b := by
  simp [nodeQuads, List.filter_append, hfalse]

/-- Appending an out-of-scope quad leaves every list walk inside an
in-scope graph unchanged. -/
theorem collectIris_append (store : Store) (q : Quad) (g : Iri)
    (hfalse : graphIsExactly g q.graph = false) :
    ∀ (fuel : Nat) (b : String) (acc : List Iri),
      collectIris (store ++ [q]) g fuel b acc = collectIris store g fuel b acc := by
  intro fuel
  induction fuel with
  | zero => intro b acc; rfl
  | succ n ih =>
    intro b acc
    simp only [collectIris]
    rw [nodeQuads_append store q g b hfalse]
    exact collectLoop_congr _ _ (fun b' acc' => ih b' acc') _ acc

/-- Appending an out-of-scope quad leaves the decoding of a mapping quad
of an in-scope graph unchanged. -/
theorem buildMap_append (store : Store) (q : Quad) (fuel : Nat) (g : Iri)
    (op : MappingOp) (obj : Term)
    (hfalse : graphIsExactly g q.graph = false) :
    buildMap (store ++ [q]) fuel g op obj = buildMap store fuel g op obj := by
  cases op with
  | same => rfl
  | hash => rfl
  | hashFirst =>
    cases obj with
    | blank b =>
      simp only [buildMap, collectIrisTop]
      rw [collectIris_append store q g hfalse fuel b []]
    | iri i => rfl
    | lit v d => rfl
    | triple a b c => rfl
  | combines =>
    cases obj with
    | blank b =>
      simp only [buildMap, collectIrisTop]
      rw [collectIris_append store q g hfalse fuel b []]
    | iri i => rfl
    | lit v d => rfl
    | triple a b c => rfl
  | whenOp => rfl
  | fromOp => rfl

/-- Appending an out-of-scope quad leaves the processing of each matched
mapping quad unchanged. -/
theorem fieldMapQuad_append (store : Store) (q : Quad) (fuel : Nat) (scope : List Iri)
    (acc : FieldMap) (q' : Quad)
    (hq : graphInScope scope q.graph = false)
    (hq' : graphInScope scope q'.graph = true) :
    fieldMapQuad (store ++ [q]) fuel acc q' = fieldMapQuad store fuel acc q' := by
  cases hqg : q'.graph with
  | none => rw [hqg] at hq'; exact absurd hq' (by simp [graphInScope])
  | some g =>
    rw [hqg] at hq'
    simp only [graphInScope] at hq'
    have hfalse := graphIsExactly_of_out scope q g hq hq'
    simp only [fieldMapQuad, hqg]
    split
    · rfl
    · rw [buildMap_append store q fuel g _ _ hfalse]

/-- Folding a fallible step over the same list yields the same result
when the steps agree on every element of the list. -/
theorem exceptFoldlM_congr {α β : Type} (f1 f2 : β → α → Res β) (P : α → Prop)
    (hf : ∀ b x, P x → f1 b x = f2 b x) :
    ∀ (l : List α), (∀ x ∈ l, P x) → ∀ init, l.foldlM f1 init = l.foldlM f2 init := by
  intro l
  induction l with
  | nil => intro _ init; rfl
  | cons x rest ih =>
    intro hl init
    have hx := hl x (List.mem_cons_self x rest)
    have hrest := fun y hy => hl y (List.mem_cons_of_mem x hy)
    simp only [List.foldlM_cons]
    rw [hf init x hx]
    cases f2 init x with
    | error e => rfl
    | ok b => exact ih hrest b

/-- Appending an out-of-scope quad leaves the field map unchanged. -/
theorem fieldMap_append (store : Store) (q : Quad) (fuel : Nat)
    (fields scope : List Iri) (hq : graphInScope scope q.graph = false) :
    fieldMap (store ++ [q]) fuel fields scope = fieldMap store fuel fields scope := by
  simp only [fieldMap]
  have hfilter : (store ++ [q]).filter
        (fun qq => subjectInFields fields qq && graphInScope scope qq.graph) =
      store.filter (fun qq => subjectInFields fields qq && graphInScope scope qq.graph) := by
    simp [List.filter_append, hq]
  rw [hfilter]
  refine exceptFoldlM_congr (fieldMapQuad (store ++ [q]) fuel) (fieldMapQuad store fuel)
    (fun qq => graphInScope scope qq.graph = true) ?_ _ ?_ []
  · intro acc qq hqq
    exact fieldMapQuad_append store q fuel scope acc qq hq hqq
  · intro qq hqq
    have hmem := (List.mem_filter.1 hqq).2
    rw [Bool.and_eq_true] at hmem
    exact hmem.2

/-- Appending an out-of-scope quad leaves the data scan unchanged. -/
theorem scanStore_append (reverse : List (Iri × List Iri)) (linkedFields : List Iri)
    (terms : List Iri) (scope : List Iri) (store : Store) (q : Quad)
    (hq : graphInScope scope q.graph = false) :
    scanStore reverse linkedFields terms scope (store ++ [q]) =
      scanStore reverse linkedFields terms scope store := by
  simp only [scanStore]
  congr 1
  simp [List.filter_append, hq]

/-- Appending an out-of-scope quad leaves `records` unchanged, provided
the field map yields no `from` linked join. -/
theorem recordsGo_append (store : Store) (q : Quad) (fuel : Nat)
    (fields scope : List Iri)
    (hq : graphInScope scope q.graph = false)
    (hnl : linkedOfResult (fieldMap store fuel fields scope) = []) :
    recordsGo (store ++ [q]) fuel fields scope = recordsGo store fuel fields scope := by
  cases fuel with
  | zero => rfl
  | succ n =>
    simp only [recordsGo]
    rw [fieldMap_append store q (n + 1) fields scope hq]
    split
    · rfl
    · rename_i map hm
      have hlinked : (buildMapInfo map).linked = [] := by
        rw [hm] at hnl
        exact hnl
      split
      · rfl
      · rw [scanStore_append _ _ _ scope store q hq]
        split
        · rfl
        · rw [hlinked]
          rfl

/-- C5 amended.  A quad whose graph name is not in the scope set
(including any quad in the default graph) contributes nothing to the
field-map construction or the data scan of a resolve over that scope;
provided the resolved field map contains no `from` mapping, adding such
a quad leaves the whole resolve result unchanged.  (With a `from`
mapping the linked join consults `transforms_into` quads in any graph —
the default graph included — and then scans the linked graphs, which
are outside the outer scope, so such quads can change the result; see
the counterexample.) -/
theorem scope_exclusion_without_from (store : Store) (q : Quad) (fuel : Nat)
    (fields scope : List Iri)
    (hq : graphInScope scope q.graph = false)
    (hnl : linkedOfResult (fieldMap store fuel fields scope) = []) :
    resolveFn (store ++ [q]) fuel fields scope = resolveFn store fuel fields scope := by
  simp only [resolveFn]
  rw [fieldMap_append store q fuel fields scope hq,
    recordsGo_append store q fuel fields scope hq hnl]

/-- C5 amended witness: on the plain `same` store, adding a quad that
lives in the out-of-scope graph `other` leaves the resolve over
`{m, s}` unchanged. -/
theorem scope_exclusion_without_from_witness :
    resolveFn (plainSameStore ++ [⟨Term.iri "x", Term.iri "y", Term.iri "z", some "other"⟩]) 2
        ["f:tid"] ["m", "s"] =
      resolveFn plainSameStore 2 ["f:tid"] ["m", "s"] :=
  scope_exclusion_without_from plainSameStore
    ⟨Term.iri "x", Term.iri "y", Term.iri "z", some "other"⟩ 2 ["f:tid"] ["m", "s"]
    (by decide) (by decide)

/-- C7 amended witness: a single `same` map on a record with one value
yields one value, matching the contribution sum and the bound. -/
theorem resolve_output_length_bound_witness :
    [Literal.str "T1"].length =
      ([Map.same "src:tid"].map
        (contributionSpec "f:tid" [("f:tid", [Literal.str "T1"])])).sum ∧
    (∀ iris, Map.combines iris ∈ [Map.same "src:tid"] →
      contributionSpec "f:tid" [("f:tid", [Literal.str "T1"])] (Map.combines iris) = 1) ∧
    [Literal.str "T1"].length ≤
      [Map.same "src:tid"].length * max 1 (totalValues [("f:tid", [Literal.str "T1"])]) :=
  resolve_output_length_bound "f:tid" [("f:tid", [Literal.str "T1"])] [Map.same "src:tid"]
    [Literal.str "T1"] (by decide)

end Arga
